import Mathlib

/-!
Verification of the multi-period fantasy-squad planner
(`src/optimization/team_planner.py`, class `Team_Planner`).

The MILP built by `build_model` / `select_chips_model` is embedded shallowly:
an `Assignment` gives integer values to every decision variable, and
`feasibleBase` / `feasibleChip` are the conjunctions of the linear
constraints that `build_model` / `select_chips_model` add to the model,
translated line by line from the source.  Binary variables are integers
constrained to `[0,1]`, mirroring the MILP's `vartype=binary`.
-/

set_option maxHeartbeats 1600000

namespace FPLPlan

/-- The per-horizon planning data (`Team_Planner.get_data`): player list,
anchor week `start`, number of planned weeks `period`, the manager's
current squad, per-player sale value / position indicators / club
one-hots / expected points, the budget, and the free-transfer carry-in
(`rolling_transfer`) plus the transfers already made in week `start-1`
(`transfer`). -/
structure PlanData where
  players : List Int
  start : Int
  period : Nat
  initialTeam : List Int
  sv : Int → Rat
  posG : Int → Int
  posD : Int → Int
  posM : Int → Int
  posF : Int → Int
  clubs : List Int
  clubOf : Int → Int → Int
  pts : Int → Int → Rat
  budget : Rat
  rollingCarry : Int
  transferCarry : Int

/-- `self.gameweeks = np.arange(self.start, self.start+self.period)`. -/
def gameweeks (d : PlanData) : List Int :=
  (List.range d.period).map (fun (i : Nat) => d.start + (i : Int))

/-- `self.all_gameweeks = np.arange(self.start-1, self.start+self.period)`. -/
def allGameweeks (d : PlanData) : List Int :=
  (d.start - 1) :: gameweeks d

/-- Values of all decision variables of the base model
(`build_model` lines 66-76). -/
structure Assignment where
  team : Int → Int → Int
  starter : Int → Int → Int
  captain : Int → Int → Int
  vicecaptain : Int → Int → Int
  buy : Int → Int → Int
  sell : Int → Int → Int
  ft : Int → Int
  hits : Int → Int
  rolling : Int → Int

/-- Sum of an integer expression over the player list (`so.expr_sum`). -/
def sumP (d : PlanData) (f : Int → Int) : Int := (d.players.map f).sum

/-- Sum of a rational expression over the player list. -/
def sumPQ (d : PlanData) (f : Int → Rat) : Rat := (d.players.map f).sum

/-- `number_of_transfers` (lines 153-154): the planned weeks map to the
sum of that week's sells, and week `start-1` maps to `self.transfer`. -/
def numTransfers (d : PlanData) (a : Assignment) (w : Int) : Int :=
  if w = d.start - 1 then d.transferCarry else sumP d (fun p => a.sell p w)

/-- The big-M pair `rolling_condition_1` / `rolling_condition_2`
(lines 155-160) on surplus `s = ft[w-1] - number_of_transfers[w-1]` and
indicator `r = rolling_transfers[w]`. -/
abbrev rollingPair (s r : Int) : Prop :=
  s ≤ 2 * r ∧ r + (-14) * (1 - r) ≤ s

/-- Variable-domain constraints from the declarations (lines 66-76):
binaries lie in `[0,1]`, `ft` in `[1,2]`, `hits` in `[0,15]`. -/
abbrev varBounds (d : PlanData) (a : Assignment) : Prop :=
  (∀ p ∈ d.players, ∀ w ∈ allGameweeks d, 0 ≤ a.team p w ∧ a.team p w ≤ 1) ∧
  (∀ p ∈ d.players, ∀ w ∈ gameweeks d,
    (0 ≤ a.starter p w ∧ a.starter p w ≤ 1) ∧
    (0 ≤ a.captain p w ∧ a.captain p w ≤ 1) ∧
    (0 ≤ a.vicecaptain p w ∧ a.vicecaptain p w ≤ 1) ∧
    (0 ≤ a.buy p w ∧ a.buy p w ≤ 1) ∧
    (0 ≤ a.sell p w ∧ a.sell p w ≤ 1)) ∧
  (∀ w ∈ allGameweeks d, 1 ≤ a.ft w ∧ a.ft w ≤ 2) ∧
  (∀ w ∈ gameweeks d, 0 ≤ a.hits w ∧ a.hits w ≤ 15) ∧
  (∀ w ∈ gameweeks d, 0 ≤ a.rolling w ∧ a.rolling w ≤ 1)

/-- Initial conditions (lines 103-104): anchor squad and anchor
free-transfer count. -/
abbrev anchorCons (d : PlanData) (a : Assignment) : Prop :=
  (∀ p ∈ d.initialTeam, a.team p (d.start - 1) = 1) ∧
  a.ft (d.start - 1) = d.rollingCarry + 1

/-- Squad-shape constraints (lines 108-140): budget, cardinalities,
captain/vice disjointness, club quota, position quotas, formation
minima, and role containment. -/
abbrev squadCons (d : PlanData) (a : Assignment) : Prop :=
  (∀ w ∈ allGameweeks d, sumPQ d (fun p => (a.team p w : Rat) * d.sv p) ≤ d.budget) ∧
  (∀ w ∈ allGameweeks d, sumP d (fun p => a.team p w) = 15) ∧
  (∀ w ∈ gameweeks d, sumP d (fun p => a.starter p w) = 11) ∧
  (∀ w ∈ gameweeks d, sumP d (fun p => a.captain p w) = 1) ∧
  (∀ w ∈ gameweeks d, sumP d (fun p => a.vicecaptain p w) = 1) ∧
  (∀ p ∈ d.players, ∀ w ∈ gameweeks d, a.captain p w + a.vicecaptain p w ≤ 1) ∧
  (∀ c ∈ d.clubs, ∀ w ∈ gameweeks d, sumP d (fun p => a.team p w * d.clubOf c p) ≤ 3) ∧
  (∀ w ∈ gameweeks d, sumP d (fun p => a.team p w * d.posG p) = 2) ∧
  (∀ w ∈ gameweeks d, sumP d (fun p => a.team p w * d.posD p) = 5) ∧
  (∀ w ∈ gameweeks d, sumP d (fun p => a.team p w * d.posM p) = 5) ∧
  (∀ w ∈ gameweeks d, sumP d (fun p => a.team p w * d.posF p) = 3) ∧
  (∀ w ∈ gameweeks d, sumP d (fun p => a.starter p w * d.posG p) = 1) ∧
  (∀ w ∈ gameweeks d, 3 ≤ sumP d (fun p => a.starter p w * d.posD p)) ∧
  (∀ w ∈ gameweeks d, 2 ≤ sumP d (fun p => a.starter p w * d.posM p)) ∧
  (∀ w ∈ gameweeks d, 1 ≤ sumP d (fun p => a.starter p w * d.posF p)) ∧
  (∀ p ∈ d.players, ∀ w ∈ gameweeks d,
    a.captain p w ≤ a.starter p w ∧
    a.vicecaptain p w ≤ a.starter p w ∧
    a.starter p w ≤ a.team p w)

/-- Transfer constraints (lines 142-163): continuity, rolling relation,
buy/sell exclusivity, the big-M rolling pair, and hit accounting. -/
abbrev transferCons (d : PlanData) (a : Assignment) : Prop :=
  (∀ p ∈ d.players, ∀ w ∈ gameweeks d,
    a.team p w = a.team p (w - 1) + a.buy p w - a.sell p w) ∧
  (∀ w ∈ gameweeks d, a.ft w = a.rolling w + 1) ∧
  (∀ p ∈ d.players, ∀ w ∈ gameweeks d, a.sell p w + a.buy p w ≤ 1) ∧
  (∀ w ∈ gameweeks d,
    rollingPair (a.ft (w - 1) - numTransfers d a (w - 1)) (a.rolling w)) ∧
  (∀ w ∈ gameweeks d, numTransfers d a w - a.ft w ≤ a.hits w)

/-- A feasible assignment of the base model: all constraints that
`build_model` adds, together with the variable domains. -/
abbrev feasibleBase (d : PlanData) (a : Assignment) : Prop :=
  varBounds d a ∧ anchorCons d a ∧ squadCons d a ∧ transferCons d a

/-! ### A concrete feasible instance

Fifteen players `0..14` (2 GK, 5 DEF, 5 MID, 3 FWD, fifteen distinct
clubs), anchor week `0`, two planned weeks `1, 2`, unit sale values and
a budget of 15, no carried transfers. -/

/-- Concrete plan data used to witness feasibility. -/
def d0 : PlanData where
  players := [0, 1, 2, 3, 4, 5, 6, 7, 8, 9, 10, 11, 12, 13, 14]
  start := 1
  period := 2
  initialTeam := [0, 1, 2, 3, 4, 5, 6, 7, 8, 9, 10, 11, 12, 13, 14]
  sv := fun _ => 1
  posG := fun p => if p < 2 then 1 else 0
  posD := fun p => if 2 ≤ p ∧ p < 7 then 1 else 0
  posM := fun p => if 7 ≤ p ∧ p < 12 then 1 else 0
  posF := fun p => if 12 ≤ p ∧ p < 15 then 1 else 0
  clubs := [0, 1, 2, 3, 4, 5, 6, 7, 8, 9, 10, 11, 12, 13, 14]
  clubOf := fun c p => if c = p then 1 else 0
  pts := fun _ _ => 0
  budget := 15
  rollingCarry := 0
  transferCarry := 0

/-- A concrete feasible assignment for `d0`: keep the full squad both
weeks, no transfers, captain 7 and vice-captain 8 among the eleven
starters, one free transfer rolled into each planned week. -/
def a0 : Assignment where
  team := fun _ _ => 1
  starter := fun p _ =>
    if p = 0 ∨ (2 ≤ p ∧ p ≤ 6) ∨ (7 ≤ p ∧ p ≤ 10) ∨ p = 12 then 1 else 0
  captain := fun p _ => if p = 7 then 1 else 0
  vicecaptain := fun p _ => if p = 8 then 1 else 0
  buy := fun _ _ => 0
  sell := fun _ _ => 0
  ft := fun w => if w = 0 then 1 else 2
  hits := fun _ => 0
  rolling := fun _ => 1

/-- The budget constraint holds on the concrete instance: fifteen unit
sale values against a budget of 15. -/
lemma budget_d0 :
    ∀ w ∈ allGameweeks d0, sumPQ d0 (fun p => (a0.team p w : Rat) * d0.sv p) ≤ d0.budget := by
  intro w _
  show sumPQ d0 (fun p => (a0.team p w : Rat) * d0.sv p) ≤ d0.budget
  norm_num [sumPQ, d0, a0]

/-- The concrete instance satisfies every base-model constraint. -/
lemma feas_d0_a0 : feasibleBase d0 a0 :=
  ⟨by decide, by decide, ⟨budget_d0, by decide⟩, by decide⟩

/-! ### Helper lemmas about the week lists and list sums -/

lemma mem_gameweeks {d : PlanData} {w : Int} :
    w ∈ gameweeks d ↔ ∃ i : Nat, i < d.period ∧ w = d.start + i := by
  constructor
  · intro hw
    rcases List.mem_map.mp hw with ⟨i, hi, rfl⟩
    exact ⟨i, List.mem_range.mp hi, rfl⟩
  · rintro ⟨i, hi, rfl⟩
    exact List.mem_map.mpr ⟨i, List.mem_range.mpr hi, rfl⟩

lemma mem_gameweeks_of {d : PlanData} {k : Int} (h0 : 0 ≤ k)
    (h1 : k < (d.period : Int)) : d.start + k ∈ gameweeks d :=
  mem_gameweeks.mpr ⟨k.toNat, by omega, by omega⟩

lemma mem_all_of_mem {d : PlanData} {w : Int} (hw : w ∈ gameweeks d) :
    w ∈ allGameweeks d :=
  List.mem_cons_of_mem _ hw

lemma sub_one_mem_all {d : PlanData} {w : Int} (hw : w ∈ gameweeks d) :
    w - 1 ∈ allGameweeks d := by
  rcases mem_gameweeks.mp hw with ⟨i, hi, rfl⟩
  rcases Nat.eq_zero_or_pos i with h0 | hpos
  · subst h0
    have h : d.start + ((0 : Nat) : Int) - 1 = d.start - 1 := by simp
    rw [h]
    exact List.mem_cons_self _ _
  · have h : d.start + (i : Int) - 1 = d.start + ((i - 1 : Nat) : Int) := by omega
    rw [h]
    exact List.mem_cons_of_mem _ (mem_gameweeks.mpr ⟨i - 1, by omega, rfl⟩)

lemma gameweeks_nodup (d : PlanData) : (gameweeks d).Nodup :=
  (List.nodup_range d.period).map (fun i j hij => by omega)

lemma sum_map_nonneg (l : List Int) (f : Int → Int) (h : ∀ x ∈ l, 0 ≤ f x) :
    0 ≤ (l.map f).sum := by
  induction l with
  | nil => simp
  | cons a t ih =>
    simp only [List.map_cons, List.sum_cons]
    have ha := h a (List.mem_cons_self _ _)
    have ht := ih (fun x hx => h x (List.mem_cons_of_mem _ hx))
    omega

lemma sum_map_zero_of (l : List Int) (f : Int → Int) (h0 : ∀ x ∈ l, 0 ≤ f x)
    (hs : (l.map f).sum = 0) : ∀ x ∈ l, f x = 0 := by
  induction l with
  | nil => intro x hx; cases hx
  | cons a t ih =>
    simp only [List.map_cons, List.sum_cons] at hs
    have ha := h0 a (List.mem_cons_self _ _)
    have htn := sum_map_nonneg t f (fun x hx => h0 x (List.mem_cons_of_mem _ hx))
    intro x hx
    rcases List.mem_cons.mp hx with rfl | hx
    · omega
    · exact ih (fun y hy => h0 y (List.mem_cons_of_mem _ hy)) (by omega) x hx

lemma sum_map_split (l : List Int) (f g h k : Int → Int)
    (hpt : ∀ x ∈ l, f x = g x + h x - k x) :
    (l.map f).sum = (l.map g).sum + (l.map h).sum - (l.map k).sum := by
  induction l with
  | nil => simp
  | cons a t ih =>
    simp only [List.map_cons, List.sum_cons]
    have ha := hpt a (List.mem_cons_self _ _)
    have ht := ih (fun x hx => hpt x (List.mem_cons_of_mem _ hx))
    omega

lemma sum_map_binary_count (l : List Int) (f : Int → Int)
    (hb : ∀ x ∈ l, 0 ≤ f x ∧ f x ≤ 1) :
    (l.map f).sum = ((l.filter (fun x => f x = 1)).length : Int) := by
  induction l with
  | nil => simp
  | cons a t ih =>
    have ha := hb a (List.mem_cons_self _ _)
    have ht := ih (fun x hx => hb x (List.mem_cons_of_mem _ hx))
    by_cases hf : f a = 1
    · simp only [List.map_cons, List.sum_cons, List.filter_cons,
        decide_eq_true_eq, hf, if_pos trivial]
      simp only [List.length_cons]
      omega
    · have hf0 : f a = 0 := by omega
      simp only [List.map_cons, List.sum_cons, List.filter_cons]
      rw [if_neg (by simp [hf])]
      omega

/-! ### The objective of the base model (lines 81-100)

`build_model` sets the objective `- xp - ftv` with sense `'N'`
(minimization of the negated total, i.e. maximization of `xp + ftv`).
The week weight is `decay_gameweek ** (w - start)` when
`objective_type == 'linear'` and `1` otherwise. -/

/-- The week-`w` expected-points term of `xp` (lines 84-91): full credit
for starter and captain, bench weight `decay_bench` for the vice-captain
and the bench, minus 4 points per hit. -/
def weekXP (d : PlanData) (decayBench : Rat) (a : Assignment) (w : Int) : Rat :=
  sumPQ d (fun p =>
    ((a.starter p w : Rat) + (a.captain p w : Rat) +
      decayBench * ((a.vicecaptain p w : Rat) + (a.team p w : Rat) - (a.starter p w : Rat))) *
    d.pts p w) - 4 * (a.hits w : Rat)

/-- The weight a planned week receives in `xp` (line 82). -/
def xpWeight (objectiveType : String) (decayGameweek : Rat) (start w : Int) : Rat :=
  if objectiveType = "linear" then decayGameweek ^ (w - start).toNat else 1

/-- `xp` (lines 81-92). -/
def xpObj (d : PlanData) (objectiveType : String) (decayGameweek decayBench : Rat)
    (a : Assignment) : Rat :=
  ((gameweeks d).map
    (fun w => xpWeight objectiveType decayGameweek d.start w * weekXP d decayBench a w)).sum

/-- `ftv` (lines 94-98): the rolled-transfer reward over
`gameweeks[1:]`. -/
def ftvObj (d : PlanData) (objectiveType : String) (decayGameweek ftVal : Rat)
    (a : Assignment) : Rat :=
  (((gameweeks d).drop 1).map (fun w =>
    (if objectiveType = "linear" then decayGameweek ^ (w - d.start - 1).toNat else 1) *
    (ftVal * (a.rolling w : Rat)))).sum

/-- The minimized objective `- xp - ftv` (line 100). -/
def objMin (d : PlanData) (objectiveType : String) (decayGameweek decayBench ftVal : Rat)
    (a : Assignment) : Rat :=
  - xpObj d objectiveType decayGameweek decayBench a -
    ftvObj d objectiveType decayGameweek ftVal a

/-- An optimal solution of the base model: feasible, and no feasible
assignment attains a smaller value of the minimized objective. -/
def OptimalBase (d : PlanData) (objectiveType : String)
    (decayGameweek decayBench ftVal : Rat) (a : Assignment) : Prop :=
  feasibleBase d a ∧
  ∀ a2 : Assignment, feasibleBase d a2 →
    objMin d objectiveType decayGameweek decayBench ftVal a ≤
      objMin d objectiveType decayGameweek decayBench ftVal a2

/-! ### Rational list-sum helpers -/

lemma sum_map_sub_q (l : List Int) (f g : Int → Rat) :
    (l.map f).sum - (l.map g).sum = (l.map (fun x => f x - g x)).sum := by
  induction l with
  | nil => simp
  | cons a t ih =>
    simp only [List.map_cons, List.sum_cons]
    linarith [ih]

lemma sum_map_eq_zero_q (l : List Int) (h : Int → Rat)
    (hz : ∀ x ∈ l, h x = 0) : (l.map h).sum = 0 := by
  induction l with
  | nil => simp
  | cons a t ih =>
    simp only [List.map_cons, List.sum_cons]
    rw [hz a (List.mem_cons_self _ _),
      ih (fun x hx => hz x (List.mem_cons_of_mem _ hx))]
    ring

lemma sum_map_single_q (l : List Int) (h : Int → Rat) (w : Int)
    (hnd : l.Nodup) (hw : w ∈ l) (hz : ∀ x ∈ l, x ≠ w → h x = 0) :
    (l.map h).sum = h w := by
  induction l with
  | nil => cases hw
  | cons a t ih =>
    have hna := List.nodup_cons.mp hnd
    rcases List.mem_cons.mp hw with rfl | hwt
    · simp only [List.map_cons, List.sum_cons]
      rw [sum_map_eq_zero_q t h ?hz0]
      · ring
      case hz0 =>
        intro x hx
        refine hz x (List.mem_cons_of_mem _ hx) ?_
        rintro rfl
        exact hna.1 hx
    · have ha0 : h a = 0 := by
        refine hz a (List.mem_cons_self _ _) ?_
        rintro rfl
        exact hna.1 hwt
      simp only [List.map_cons, List.sum_cons, ha0, zero_add]
      exact ih hna.2 hwt (fun x hx hxw => hz x (List.mem_cons_of_mem _ hx) hxw)

/-! ### Modifying only the hits variable -/

/-- Copy of an assignment with the `hits` value at one week replaced. -/
def mkHits (a : Assignment) (w v : Int) : Assignment :=
  { a with hits := fun u => if u = w then v else a.hits u }

@[simp] lemma mkHits_team (a : Assignment) (w v : Int) : (mkHits a w v).team = a.team := rfl

@[simp] lemma mkHits_starter (a : Assignment) (w v : Int) : (mkHits a w v).starter = a.starter := rfl

@[simp] lemma mkHits_captain (a : Assignment) (w v : Int) : (mkHits a w v).captain = a.captain := rfl

@[simp] lemma mkHits_vicecaptain (a : Assignment) (w v : Int) : (mkHits a w v).vicecaptain = a.vicecaptain := rfl

@[simp] lemma mkHits_buy (a : Assignment) (w v : Int) : (mkHits a w v).buy = a.buy := rfl

@[simp] lemma mkHits_sell (a : Assignment) (w v : Int) : (mkHits a w v).sell = a.sell := rfl

@[simp] lemma mkHits_ft (a : Assignment) (w v : Int) : (mkHits a w v).ft = a.ft := rfl

@[simp] lemma mkHits_rolling (a : Assignment) (w v : Int) : (mkHits a w v).rolling = a.rolling := rfl

@[simp] lemma mkHits_hits (a : Assignment) (w v u : Int) :
    (mkHits a w v).hits u = if u = w then v else a.hits u := rfl

/-- Replacing `hits[w]` by any value that still satisfies its lower
bounds, and does not exceed the old value, preserves feasibility. -/
lemma feasible_mkHits (d : PlanData) (a : Assignment) (w v : Int)
    (hfeas : feasibleBase d a) (hw : w ∈ gameweeks d) (h0 : 0 ≤ v)
    (hle : v ≤ a.hits w) (hcon : numTransfers d a w - a.ft w ≤ v) :
    feasibleBase d (mkHits a w v) := by
  obtain ⟨⟨htb, hrb, hftb, hhb, hrollb⟩, hanch, hsq, hcont, hftrel, hexcl, hpair, hhits⟩ := hfeas
  refine ⟨⟨htb, hrb, hftb, ?_, hrollb⟩, hanch, hsq, hcont, hftrel, hexcl, hpair, ?_⟩
  · intro u hu
    by_cases huw : u = w
    · subst huw
      have h15 := (hhb u hu).2
      simp only [mkHits_hits, if_pos rfl]
      omega
    · simp only [mkHits_hits, if_neg huw]
      exact hhb u hu
  · intro u hu
    show numTransfers d a u - a.ft u ≤ (mkHits a w v).hits u
    by_cases huw : u = w
    · subst huw
      simp only [mkHits_hits, if_pos rfl]
      exact hcon
    · simp only [mkHits_hits, if_neg huw]
      exact hhits u hu

/-- Positivity of the week weight for a positive decay factor. -/
lemma xpWeight_pos (t : String) (g : Rat) (hg : 0 < g) (s w : Int) :
    0 < xpWeight t g s w := by
  unfold xpWeight
  by_cases ht : t = "linear"
  · rw [if_pos ht]
    exact pow_pos hg _
  · rw [if_neg ht]
    exact one_pos

/-- Effect on the minimized objective of replacing `hits[w]`. -/
lemma objMin_mkHits (d : PlanData) (t : String) (g b f : Rat) (a : Assignment)
    (w v : Int) (hw : w ∈ gameweeks d) :
    objMin d t g b f (mkHits a w v) =
      objMin d t g b f a + xpWeight t g d.start w * (4 * ((v : Rat) - (a.hits w : Rat))) := by
  have hftv : ftvObj d t g f (mkHits a w v) = ftvObj d t g f a := rfl
  have hwkw : weekXP d b (mkHits a w v) w
      = weekXP d b a w - 4 * (v : Rat) + 4 * (a.hits w : Rat) := by
    unfold weekXP
    simp only [mkHits_starter, mkHits_captain, mkHits_vicecaptain,
      mkHits_team, mkHits_hits]
    rw [if_pos trivial]
    ring
  have hxp : xpObj d t g b (mkHits a w v) - xpObj d t g b a
      = xpWeight t g d.start w * (weekXP d b (mkHits a w v) w - weekXP d b a w) := by
    rw [xpObj, xpObj, sum_map_sub_q]
    rw [sum_map_single_q _ _ w (gameweeks_nodup d) hw ?hz]
    · ring
    case hz =>
      intro u hu huw
      have hwk : weekXP d b (mkHits a w v) u = weekXP d b a u := by
        unfold weekXP
        simp only [mkHits_starter, mkHits_captain, mkHits_vicecaptain,
          mkHits_team, mkHits_hits]
        rw [if_neg huw]
      rw [hwk]
      ring
  rw [hwkw] at hxp
  unfold objMin
  rw [hftv]
  linarith [hxp]

/-! ### Claims about the base model -/

/-- C1: in every feasible assignment of the base model, for every player
and planned week, transfer continuity
`team[p,w] = team[p,w-1] + buy[p,w] - sell[p,w]` holds and no player is
bought and sold in the same week (`buy[p,w] + sell[p,w] ≤ 1`). -/
theorem claim1_transfer_continuity (d : PlanData) (a : Assignment)
    (hfeas : feasibleBase d a) :
    ∀ p ∈ d.players, ∀ w ∈ gameweeks d,
      a.team p w = a.team p (w - 1) + a.buy p w - a.sell p w ∧
      a.buy p w + a.sell p w ≤ 1 := by
  obtain ⟨-, -, -, hcont, -, hexcl, -, -⟩ := hfeas
  intro p hp w hw
  refine ⟨hcont p hp w hw, ?_⟩
  have := hexcl p hp w hw
  omega

/-- Witness for C1 at the concrete instance, player 3, week 1. -/
theorem claim1_witness :
    a0.team 3 1 = a0.team 3 (1 - 1) + a0.buy 3 1 - a0.sell 3 1 ∧
    a0.buy 3 1 + a0.sell 3 1 ≤ 1 :=
  claim1_transfer_continuity d0 a0 feas_d0_a0 3 (by decide) 1 (by decide)

/-- C2: in every feasible assignment, `free_transfers[w] =
rolling_transfers[w] + 1`, and the big-M pair forces the rolling
indicator to be 1 exactly when the previous week's surplus
`ft[w-1] - transfers_made[w-1]` is at least 1 and 0 exactly when it is
at most 0, while the pair stays satisfiable (with indicator 0) for any
surplus in `[-14, 0]`. -/
theorem claim2_rolling_encoding (d : PlanData) (a : Assignment)
    (hfeas : feasibleBase d a) :
    (∀ w ∈ gameweeks d,
      a.ft w = a.rolling w + 1 ∧
      (a.rolling w = 1 ↔ 1 ≤ a.ft (w - 1) - numTransfers d a (w - 1)) ∧
      (a.rolling w = 0 ↔ a.ft (w - 1) - numTransfers d a (w - 1) ≤ 0)) ∧
    (∀ s : Int, -14 ≤ s → s ≤ 0 → rollingPair s 0) := by
  obtain ⟨⟨-, -, -, -, hrollb⟩, -, -, -, hftrel, -, hpair, -⟩ := hfeas
  constructor
  · intro w hw
    have hb := hrollb w hw
    obtain ⟨hp1, hp2⟩ := hpair w hw
    exact ⟨hftrel w hw, by omega, by omega⟩
  · intro s h1 h2
    exact ⟨by omega, by omega⟩

/-- Witness for C2 at the concrete instance, week 1, and surplus -3. -/
theorem claim2_witness :
    (a0.ft 1 = a0.rolling 1 + 1 ∧
      (a0.rolling 1 = 1 ↔ 1 ≤ a0.ft (1 - 1) - numTransfers d0 a0 (1 - 1)) ∧
      (a0.rolling 1 = 0 ↔ a0.ft (1 - 1) - numTransfers d0 a0 (1 - 1) ≤ 0)) ∧
    rollingPair (-3) 0 :=
  ⟨(claim2_rolling_encoding d0 a0 feas_d0_a0).1 1 (by decide),
   (claim2_rolling_encoding d0 a0 feas_d0_a0).2 (-3) (by decide) (by decide)⟩

/-- C4: in every feasible assignment and every planned week, exactly 15
players are in the squad, exactly 11 start, exactly one player is
captain, exactly one is vice-captain, the captain and vice-captain are
distinct, and captain/vice-captain ≤ starter ≤ team pointwise. -/
theorem claim4_squad_structure (d : PlanData) (a : Assignment)
    (hfeas : feasibleBase d a) :
    ∀ w ∈ gameweeks d,
      ((d.players.filter (fun p => a.team p w = 1)).length : Int) = 15 ∧
      ((d.players.filter (fun p => a.starter p w = 1)).length : Int) = 11 ∧
      ((d.players.filter (fun p => a.captain p w = 1)).length : Int) = 1 ∧
      ((d.players.filter (fun p => a.vicecaptain p w = 1)).length : Int) = 1 ∧
      (∀ p ∈ d.players, ∀ q ∈ d.players,
        a.captain p w = 1 → a.vicecaptain q w = 1 → p ≠ q) ∧
      (∀ p ∈ d.players,
        a.captain p w ≤ a.starter p w ∧
        a.vicecaptain p w ≤ a.starter p w ∧
        a.starter p w ≤ a.team p w) := by
  obtain ⟨⟨htb, hrb, -, -, -⟩, -,
    ⟨-, h15, h11, hcap1, hvice1, hcapvice, -, -, -, -, -, -, -, -, -, hcontain⟩, -⟩ := hfeas
  intro w hw
  refine ⟨?_, ?_, ?_, ?_, ?_, ?_⟩
  · rw [← sum_map_binary_count d.players (fun p => a.team p w)
      (fun p hp => htb p hp w (mem_all_of_mem hw))]
    exact h15 w (mem_all_of_mem hw)
  · rw [← sum_map_binary_count d.players (fun p => a.starter p w)
      (fun p hp => (hrb p hp w hw).1)]
    exact h11 w hw
  · rw [← sum_map_binary_count d.players (fun p => a.captain p w)
      (fun p hp => (hrb p hp w hw).2.1)]
    exact hcap1 w hw
  · rw [← sum_map_binary_count d.players (fun p => a.vicecaptain p w)
      (fun p hp => (hrb p hp w hw).2.2.1)]
    exact hvice1 w hw
  · intro p hp q hq hcp hvq heq
    subst heq
    have := hcapvice p hp w hw
    omega
  · intro p hp
    exact hcontain p hp w hw

/-- Witness for C4 at the concrete instance, week 2. -/
theorem claim4_witness :
    ((d0.players.filter (fun p => a0.team p 2 = 1)).length : Int) = 15 ∧
    ((d0.players.filter (fun p => a0.starter p 2 = 1)).length : Int) = 11 ∧
    ((d0.players.filter (fun p => a0.captain p 2 = 1)).length : Int) = 1 ∧
    ((d0.players.filter (fun p => a0.vicecaptain p 2 = 1)).length : Int) = 1 ∧
    (∀ p ∈ d0.players, ∀ q ∈ d0.players,
      a0.captain p 2 = 1 → a0.vicecaptain q 2 = 1 → p ≠ q) ∧
    (∀ p ∈ d0.players,
      a0.captain p 2 ≤ a0.starter p 2 ∧
      a0.vicecaptain p 2 ≤ a0.starter p 2 ∧
      a0.starter p 2 ≤ a0.team p 2) :=
  claim4_squad_structure d0 a0 feas_d0_a0 2 (by decide)

/-- C10: in every feasible assignment and every planned week, the number
of players bought equals the number of players sold; this follows from
the fixed squad size of 15 in consecutive weeks and transfer
continuity. -/
theorem claim10_buys_eq_sells (d : PlanData) (a : Assignment)
    (hfeas : feasibleBase d a) :
    ∀ w ∈ gameweeks d,
      sumP d (fun p => a.buy p w) = sumP d (fun p => a.sell p w) := by
  obtain ⟨-, -, ⟨-, h15, -⟩, hcont, -⟩ := hfeas
  intro w hw
  have h1 : sumP d (fun p => a.team p w) = 15 := h15 w (mem_all_of_mem hw)
  have h2 : sumP d (fun p => a.team p (w - 1)) = 15 := h15 (w - 1) (sub_one_mem_all hw)
  have hs := sum_map_split d.players
    (fun p => a.team p w) (fun p => a.team p (w - 1))
    (fun p => a.buy p w) (fun p => a.sell p w)
    (fun p hp => hcont p hp w hw)
  unfold sumP at h1 h2 ⊢
  omega

/-- Witness for C10 at the concrete instance, week 1. -/
theorem claim10_witness :
    sumP d0 (fun p => a0.buy p 1) = sumP d0 (fun p => a0.sell p 1) :=
  claim10_buys_eq_sells d0 a0 feas_d0_a0 1 (by decide)

/-- C5: in the decayed objective mode (spelled `'linear'` in the code),
every planned week's expected-points term is weighted by
`decay_gameweek ^ (w - start)`; in any other mode (the flat mode, the
default `'decay'` string) every week's term is weighted by 1. -/
theorem claim5_objective_modes (d : PlanData) (g b : Rat) (a : Assignment) :
    (xpObj d "linear" g b a =
      ((gameweeks d).map (fun w => g ^ (w - d.start).toNat * weekXP d b a w)).sum) ∧
    (∀ t : String, t ≠ "linear" →
      xpObj d t g b a = ((gameweeks d).map (fun w => weekXP d b a w)).sum) := by
  constructor
  · unfold xpObj xpWeight
    simp
  · intro t ht
    unfold xpObj xpWeight
    simp [ht]

/-- Witness for C5 at the concrete instance, with the default flat mode
string `'decay'`. -/
theorem claim5_witness :
    (xpObj d0 "linear" (9/10) (1/10) a0 =
      ((gameweeks d0).map
        (fun w => (9/10 : Rat) ^ (w - d0.start).toNat * weekXP d0 (1/10) a0 w)).sum) ∧
    (xpObj d0 "decay" (9/10) (1/10) a0 =
      ((gameweeks d0).map (fun w => weekXP d0 (1/10) a0 w)).sum) :=
  ⟨(claim5_objective_modes d0 (9/10) (1/10) a0).1,
   (claim5_objective_modes d0 (9/10) (1/10) a0).2 "decay" (by decide)⟩

/-! ### Optimality of the concrete instance

`d0` has all expected points equal to 0 and the witness objective uses
`ft_val = 0`, so the minimized objective of any feasible assignment is
`4 * (hits[1] + hits[2]) ≥ 0`, and `a0` (no hits) attains 0. -/

lemma gameweeks_d0 : gameweeks d0 = [1, 2] := by decide

/-- On `d0` the expected-points objective reduces to the hit penalty. -/
lemma xpObj_d0 (a : Assignment) :
    xpObj d0 "decay" (9/10) (1/10) a = -4 * ((a.hits 1 : Rat) + (a.hits 2 : Rat)) := by
  have hwk : ∀ w : Int, weekXP d0 (1/10) a w = -4 * (a.hits w : Rat) := by
    intro w
    unfold weekXP sumPQ
    rw [sum_map_eq_zero_q _ _ (fun p _ => by simp [d0])]
    ring
  have hne : ¬ (("decay" : String) = "linear") := by decide
  rw [xpObj, gameweeks_d0]
  simp only [List.map_cons, List.map_nil, List.sum_cons, List.sum_nil, hwk,
    xpWeight, if_neg hne]
  ring

/-- On the witness parameters the rolled-transfer reward vanishes. -/
lemma ftvObj_d0 (a : Assignment) : ftvObj d0 "decay" (9/10) 0 a = 0 := by
  rw [ftvObj, gameweeks_d0]
  simp

/-- Any feasible assignment has nonnegative minimized objective on the
witness instance. -/
lemma objMin_d0_nonneg (a : Assignment) (hf : feasibleBase d0 a) :
    0 ≤ objMin d0 "decay" (9/10) (1/10) 0 a := by
  have hhb := hf.1.2.2.2.1
  have h1 : 0 ≤ a.hits 1 := (hhb 1 (by decide)).1
  have h2 : 0 ≤ a.hits 2 := (hhb 2 (by decide)).1
  have c1 : (0 : Rat) ≤ (a.hits 1 : Rat) := by exact_mod_cast h1
  have c2 : (0 : Rat) ≤ (a.hits 2 : Rat) := by exact_mod_cast h2
  rw [objMin, xpObj_d0, ftvObj_d0]
  linarith

/-- `a0` is optimal for the witness instance. -/
lemma optimal_d0_a0 : OptimalBase d0 "decay" (9/10) (1/10) 0 a0 := by
  refine ⟨feas_d0_a0, ?_⟩
  intro a2 hf2
  have h0 : objMin d0 "decay" (9/10) (1/10) 0 a0 = 0 := by
    rw [objMin, xpObj_d0, ftvObj_d0]
    norm_num [a0]
  rw [h0]
  exact objMin_d0_nonneg a2 hf2

/-- C3: every feasible assignment satisfies the hit constraint
`hits[w] ≥ transfers_made[w] - free_transfers[w]`, and — because each
hit costs `4 * xpWeight > 0` in the maximized objective — every optimal
solution has `hits[w] = max 0 (transfers_made[w] - free_transfers[w])`;
in particular optimal `hits[w] = 0` whenever
`transfers_made[w] ≤ free_transfers[w]`. -/
theorem claim3_hits_optimality (d : PlanData) (t : String) (g b f : Rat)
    (a : Assignment) (hfeas : feasibleBase d a) :
    (∀ w ∈ gameweeks d, numTransfers d a w - a.ft w ≤ a.hits w) ∧
    (0 < g → OptimalBase d t g b f a →
      ∀ w ∈ gameweeks d,
        a.hits w = max 0 (numTransfers d a w - a.ft w) ∧
        (numTransfers d a w ≤ a.ft w → a.hits w = 0)) := by
  have hhb := hfeas.1.2.2.2.1
  have hhits := hfeas.2.2.2.2.2.2.2
  refine ⟨hhits, ?_⟩
  intro hg hopt w hw
  have hhw0 : 0 ≤ a.hits w := (hhb w hw).1
  have hhwn : numTransfers d a w - a.ft w ≤ a.hits w := hhits w hw
  have hvle : max 0 (numTransfers d a w - a.ft w) ≤ a.hits w :=
    max_le hhw0 hhwn
  have hfeas2 := feasible_mkHits d a w (max 0 (numTransfers d a w - a.ft w))
    hfeas hw (le_max_left _ _) hvle (le_max_right _ _)
  have hobj := hopt.2 (mkHits a w (max 0 (numTransfers d a w - a.ft w))) hfeas2
  rw [objMin_mkHits d t g b f a w _ hw] at hobj
  have hwpos := xpWeight_pos t g hg d.start w
  have hx : 0 ≤ ((max 0 (numTransfers d a w - a.ft w) : Int) : Rat) - (a.hits w : Rat) := by
    by_contra hxn
    push_neg at hxn
    have hneg : xpWeight t g d.start w *
        (4 * (((max 0 (numTransfers d a w - a.ft w) : Int) : Rat) - (a.hits w : Rat))) < 0 :=
      mul_neg_of_pos_of_neg hwpos (by linarith)
    linarith
  have hcast : (a.hits w : Rat) ≤ ((max 0 (numTransfers d a w - a.ft w) : Int) : Rat) := by
    linarith
  have hiv : a.hits w ≤ max 0 (numTransfers d a w - a.ft w) := by exact_mod_cast hcast
  have heq : a.hits w = max 0 (numTransfers d a w - a.ft w) := le_antisymm hiv hvle
  refine ⟨heq, ?_⟩
  intro hle2
  rw [heq, max_eq_left (by omega)]

/-- Witness for C3 at the concrete optimal instance, week 1. -/
theorem claim3_witness :
    (numTransfers d0 a0 1 - a0.ft 1 ≤ a0.hits 1) ∧
    a0.hits 1 = max 0 (numTransfers d0 a0 1 - a0.ft 1) ∧
    (numTransfers d0 a0 1 ≤ a0.ft 1 → a0.hits 1 = 0) :=
  ⟨(claim3_hits_optimality d0 "decay" (9/10) (1/10) 0 a0 feas_d0_a0).1 1 (by decide),
   (claim3_hits_optimality d0 "decay" (9/10) (1/10) 0 a0 feas_d0_a0).2
     (by norm_num) optimal_d0_a0 1 (by decide)⟩

/-! ### The chip extension (`select_chips_model`, lines 173-255) -/

/-- Values of the chip variables added by `select_chips_model`
(lines 184-187): `fh` and `wc` are integers in `[0,15]` counting the
hits the chip exempts, `bb` is binary, `3xc` is binary per player and
week. -/
structure ChipVars where
  fhv : Int → Int
  wcv : Int → Int
  bbv : Int → Int
  tcv : Int → Int → Int

/-- Sum of an integer expression over the planned weeks. -/
def sumW (d : PlanData) (f : Int → Int) : Int := ((gameweeks d).map f).sum

/-- The constraints `select_chips_model` adds (lines 184-255).  A chip
argument equal to `-1` is the "do not use" sentinel; the Python guard
`if chip_gw + 1:` takes the active branch for every other integer. -/
abbrev chipCons (d : PlanData) (fhGw wcGw bbGw tcGw : Int)
    (c : ChipVars) (a : Assignment) : Prop :=
  (∀ w ∈ gameweeks d, 0 ≤ c.fhv w ∧ c.fhv w ≤ 15) ∧
  (∀ w ∈ gameweeks d, 0 ≤ c.wcv w ∧ c.wcv w ≤ 15) ∧
  (∀ w ∈ gameweeks d, 0 ≤ c.bbv w ∧ c.bbv w ≤ 1) ∧
  (∀ p ∈ d.players, ∀ w ∈ gameweeks d, 0 ≤ c.tcv p w ∧ c.tcv p w ≤ 1) ∧
  (fhGw + 1 ≠ 0 →
    c.fhv (d.start + fhGw) = a.hits (d.start + fhGw) ∧
    c.fhv (d.start + fhGw + 1) = a.hits (d.start + fhGw) ∧
    sumW d c.fhv = a.hits (d.start + fhGw) + a.hits (d.start + fhGw + 1) ∧
    (∀ p ∈ d.players, a.buy p (d.start + fhGw) = a.sell p (d.start + fhGw + 1)) ∧
    (∀ p ∈ d.players, a.sell p (d.start + fhGw) = a.buy p (d.start + fhGw + 1))) ∧
  (fhGw + 1 = 0 → sumW d c.fhv = 0) ∧
  (wcGw + 1 ≠ 0 →
    c.wcv (d.start + wcGw) = a.hits (d.start + wcGw) ∧
    sumW d c.wcv = a.hits (d.start + wcGw)) ∧
  (wcGw + 1 = 0 → sumW d c.wcv = 0) ∧
  (bbGw + 1 ≠ 0 → c.bbv (d.start + bbGw) = 1 ∧ sumW d c.bbv = 1) ∧
  (bbGw + 1 = 0 → sumW d c.bbv = 0) ∧
  (tcGw + 1 ≠ 0 →
    sumP d (fun p => c.tcv p (d.start + tcGw)) = 1 ∧
    sumP d (fun p => sumW d (c.tcv p)) = 1 ∧
    (∀ p ∈ d.players, ∀ w ∈ gameweeks d, c.tcv p w ≤ a.captain p w)) ∧
  (tcGw + 1 = 0 → sumP d (fun p => sumW d (c.tcv p)) = 0)

/-- A feasible assignment of the chip-extended model. -/
abbrev feasibleChip (d : PlanData) (fhGw wcGw bbGw tcGw : Int)
    (c : ChipVars) (a : Assignment) : Prop :=
  feasibleBase d a ∧ chipCons d fhGw wcGw bbGw tcGw c a

/-- All-zero chip variables. -/
def c0 : ChipVars where
  fhv := fun _ => 0
  wcv := fun _ => 0
  bbv := fun _ => 0
  tcv := fun _ _ => 0

/-- Concrete feasible chip-extended assignment with a free hit
activated at offset 0. -/
lemma feas_chip_d0_fh : feasibleChip d0 0 (-1) (-1) (-1) c0 a0 :=
  ⟨feas_d0_a0, by decide⟩

/-- Concrete feasible chip-extended assignment with no chip
requested. -/
lemma feas_chip_d0_none : feasibleChip d0 (-1) (-1) (-1) (-1) c0 a0 :=
  ⟨feas_d0_a0, by decide⟩

/-- C6: if the free hit is activated at offset `k` (with week `k+1`
still inside the horizon), the chip constraints equate week `start+k`
buys with week `start+k+1` sells and vice versa, and together with
transfer continuity the squad at week `start+k+1` equals the squad at
week `start+k-1`. -/
theorem claim6_freehit_revert (d : PlanData) (fhGw wcGw bbGw tcGw : Int)
    (c : ChipVars) (a : Assignment)
    (hfeas : feasibleChip d fhGw wcGw bbGw tcGw c a)
    (h0 : 0 ≤ fhGw) (h1 : fhGw + 1 < (d.period : Int)) :
    ∀ p ∈ d.players,
      a.buy p (d.start + fhGw) = a.sell p (d.start + fhGw + 1) ∧
      a.sell p (d.start + fhGw) = a.buy p (d.start + fhGw + 1) ∧
      a.team p (d.start + fhGw + 1) = a.team p (d.start + fhGw - 1) := by
  obtain ⟨hbase, hchip⟩ := hfeas
  have hcont := hbase.2.2.2.1
  obtain ⟨-, -, -, hbs, hsb⟩ := hchip.2.2.2.2.1 (by omega)
  intro p hp
  have hw1 : d.start + fhGw ∈ gameweeks d := mem_gameweeks_of h0 (by omega)
  have hw2 : d.start + (fhGw + 1) ∈ gameweeks d := mem_gameweeks_of (by omega) h1
  have hw2e : d.start + (fhGw + 1) = d.start + fhGw + 1 := by ring
  rw [hw2e] at hw2
  have hc1 := hcont p hp _ hw1
  have hc2 := hcont p hp _ hw2
  have harg : d.start + fhGw + 1 - 1 = d.start + fhGw := by ring
  rw [harg] at hc2
  have he1 := hbs p hp
  have he2 := hsb p hp
  exact ⟨he1, he2, by omega⟩

/-- Witness for C6: free hit at offset 0 in the concrete instance,
player 3. -/
theorem claim6_witness :
    a0.buy 3 (d0.start + 0) = a0.sell 3 (d0.start + 0 + 1) ∧
    a0.sell 3 (d0.start + 0) = a0.buy 3 (d0.start + 0 + 1) ∧
    a0.team 3 (d0.start + 0 + 1) = a0.team 3 (d0.start + 0 - 1) :=
  claim6_freehit_revert d0 0 (-1) (-1) (-1) c0 a0 feas_chip_d0_fh
    (by decide) (by decide) 3 (by decide)

/-- Assignment with two hits in each planned week (still feasible:
`hits` is only bounded below by the transfer surplus). -/
def a1 : Assignment :=
  { a0 with hits := fun w => if w = 1 ∨ w = 2 then 2 else 0 }

/-- Chip variables matching `a1` under a free hit at offset 0: the
free-hit variable carries the exempted hit count 2 in both affected
weeks. -/
def c1 : ChipVars where
  fhv := fun w => if w = 1 ∨ w = 2 then 2 else 0
  wcv := fun _ => 0
  bbv := fun _ => 0
  tcv := fun _ _ => 0

/-- The budget constraint only depends on the squad variables, which
`a1` shares with `a0`. -/
lemma budget_a1 :
    ∀ w ∈ allGameweeks d0, sumPQ d0 (fun p => (a1.team p w : Rat) * d0.sv p) ≤ d0.budget := by
  intro w _
  show sumPQ d0 (fun p => (a1.team p w : Rat) * d0.sv p) ≤ d0.budget
  norm_num [sumPQ, d0, a1, a0]

/-- `a1` is feasible for the base model. -/
lemma feas_d0_a1 : feasibleBase d0 a1 :=
  ⟨by decide, by decide, ⟨budget_a1, by decide⟩, by decide⟩

/-- C7 counterexample: a feasible assignment of the chip-extended model
(free hit at offset 0) in which the free-hit variables sum to 4 over
the horizon, refuting "the sum of that chip's activation variables
across the whole horizon is at most 1". -/
theorem claim7_counterexample :
    feasibleChip d0 0 (-1) (-1) (-1) c1 a1 ∧ ¬ (sumW d0 c1.fhv ≤ 1) :=
  ⟨⟨feas_d0_a1, by decide⟩, by decide⟩

/-- C7 (amended): for bench boost and triple captain the summed
activations over the horizon are at most 1, and any chip requested with
the sentinel `-1` (which is how an already-used chip must be requested)
has its variables identically 0; the free-hit and wildcard variables
are integer exempted-hit counts and their sums are not bounded by 1. -/
theorem claim7_chip_exclusivity_amended (d : PlanData) (fhGw wcGw bbGw tcGw : Int)
    (c : ChipVars) (a : Assignment)
    (hfeas : feasibleChip d fhGw wcGw bbGw tcGw c a) :
    sumW d c.bbv ≤ 1 ∧
    sumP d (fun p => sumW d (c.tcv p)) ≤ 1 ∧
    (fhGw = -1 → ∀ w ∈ gameweeks d, c.fhv w = 0) ∧
    (wcGw = -1 → ∀ w ∈ gameweeks d, c.wcv w = 0) ∧
    (bbGw = -1 → ∀ w ∈ gameweeks d, c.bbv w = 0) ∧
    (tcGw = -1 → ∀ p ∈ d.players, ∀ w ∈ gameweeks d, c.tcv p w = 0) := by
  obtain ⟨hbase, hfb, hwb, hbb2, htb2, hfha, hfhu, hwca, hwcu, hbba, hbbu, htca, htcu⟩ := hfeas
  refine ⟨?_, ?_, ?_, ?_, ?_, ?_⟩
  · by_cases h : bbGw + 1 = 0
    · rw [hbbu h]; omega
    · rw [(hbba h).2]
  · by_cases h : tcGw + 1 = 0
    · rw [htcu h]; omega
    · rw [(htca h).2.1]
  · intro h
    exact sum_map_zero_of (gameweeks d) c.fhv (fun w hw => (hfb w hw).1)
      (hfhu (by omega))
  · intro h
    exact sum_map_zero_of (gameweeks d) c.wcv (fun w hw => (hwb w hw).1)
      (hwcu (by omega))
  · intro h
    exact sum_map_zero_of (gameweeks d) c.bbv (fun w hw => (hbb2 w hw).1)
      (hbbu (by omega))
  · intro h p hp
    have houter : ∀ q ∈ d.players, sumW d (c.tcv q) = 0 :=
      sum_map_zero_of d.players (fun q => sumW d (c.tcv q))
        (fun q hq => sum_map_nonneg (gameweeks d) (c.tcv q)
          (fun w hw => (htb2 q hq w hw).1))
        (htcu (by omega))
    exact sum_map_zero_of (gameweeks d) (c.tcv p)
      (fun w hw => (htb2 p hp w hw).1) (houter p hp)

/-- Witness for the amended C7 at the concrete no-chip instance. -/
theorem claim7_witness :
    sumW d0 c0.bbv ≤ 1 ∧ (∀ w ∈ gameweeks d0, c0.fhv w = 0) :=
  ⟨(claim7_chip_exclusivity_amended d0 (-1) (-1) (-1) (-1) c0 a0 feas_chip_d0_none).1,
   (claim7_chip_exclusivity_amended d0 (-1) (-1) (-1) (-1) c0 a0 feas_chip_d0_none).2.2.1 rfl⟩

/-! ### The precondition checks of `select_chips_model` (lines 174-182) -/

/-- The assert chain at the top of `select_chips_model`: each requested
offset must be `< horizon`, and a chip recorded as already used must
not be requested (a request is an offset `≥ 0`).  The function returns
`false` exactly when some assert fires. -/
def chipAsserts (horizon fhGw wcGw bbGw tcGw : Int)
    (fhUsed wcUsed bbUsed tcUsed : Bool) : Bool :=
  decide (fhGw < horizon) && decide (wcGw < horizon) &&
  decide (bbGw < horizon) && decide (tcGw < horizon) &&
  !(fhUsed && decide (0 ≤ fhGw)) && !(wcUsed && decide (0 ≤ wcGw)) &&
  !(bbUsed && decide (0 ≤ bbGw)) && !(tcUsed && decide (0 ≤ tcGw))

/-- C8 counterexample: the free-hit offset -2 lies outside
`[0, horizon)` and is not the -1 sentinel, yet every assert passes, so
the operation does not fail for it. -/
theorem claim8_counterexample :
    chipAsserts 5 (-2) (-1) (-1) (-1) false false false false = true ∧
    ¬ (0 ≤ (-2 : Int) ∧ (-2 : Int) < 5) ∧ (-2 : Int) ≠ -1 := by
  decide

/-- C8 (amended): the checks, which run before any chip variable or
constraint is added, fail exactly when some requested offset is at or
beyond the horizon or an already-used chip is requested with an offset
`≥ 0`; offsets below -1 are not rejected. -/
theorem claim8_asserts_amended (horizon fhGw wcGw bbGw tcGw : Int)
    (fhUsed wcUsed bbUsed tcUsed : Bool) :
    chipAsserts horizon fhGw wcGw bbGw tcGw fhUsed wcUsed bbUsed tcUsed = false ↔
      (horizon ≤ fhGw ∨ horizon ≤ wcGw ∨ horizon ≤ bbGw ∨ horizon ≤ tcGw ∨
       (fhUsed = true ∧ 0 ≤ fhGw) ∨ (wcUsed = true ∧ 0 ≤ wcGw) ∨
       (bbUsed = true ∧ 0 ≤ bbGw) ∨ (tcUsed = true ∧ 0 ≤ tcGw)) := by
  unfold chipAsserts
  cases fhUsed <;> cases wcUsed <;> cases bbUsed <;> cases tcUsed <;>
    simp <;> omega

/-! ### Decoding the solver result file (`solve`, lines 257-277)

The result file is a list of raw text lines.  Python's `str.split()`
and substring test are embedded over `List Char`. -/

/-- The whitespace characters `str.split()` splits on. -/
def isSpaceCh (ch : Char) : Bool :=
  ch == ' ' || ch == '\t' || ch == '\n' || ch == '\r'

/-- Accumulator pass of `str.split()`: split on whitespace runs,
discarding empty fields. -/
def pySplitGo : List Char → List Char → List (List Char)
  | [], cur => if cur.isEmpty then [] else [cur.reverse]
  | ch :: rest, cur =>
    if isSpaceCh ch then
      if cur.isEmpty then pySplitGo rest [] else cur.reverse :: pySplitGo rest []
    else pySplitGo rest (ch :: cur)

/-- Python's `line.split()`. -/
def pySplit (l : List Char) : List (List Char) := pySplitGo l []

/-- Prefix test for the substring search. -/
def isPrefixCh : List Char → List Char → Bool
  | [], _ => true
  | _ :: _, [] => false
  | ch :: pt, c2 :: l2 => ch == c2 && isPrefixCh pt l2

/-- Python's contiguous substring test `pat in line`. -/
def containsSeq (pat : List Char) : List Char → Bool
  | [] => pat.isEmpty
  | ch :: rest => isPrefixCh pat (ch :: rest) || containsSeq pat rest

/-- The pattern whose presence makes `solve` skip a line (line 273). -/
def objValuePat : List Char := "objective value".toList

/-- The decoding loop of `solve` (lines 271-277): a line containing
"objective value" is skipped; any other line is split into
whitespace-separated words, `words[1]` must name a model variable and
`words[2]` is its decoded value.  `none` models the uncaught Python
exception on a malformed line (fewer than three words) or an unknown
variable name. -/
def decodeLines (varNames : List (List Char)) :
    List (List Char) → Option (List (List Char × List Char))
  | [] => some []
  | line :: rest =>
    if containsSeq objValuePat line then decodeLines varNames rest
    else
      match pySplit line with
      | _ :: name :: value :: _ =>
        if varNames.contains name then
          (decodeLines varNames rest).map (fun m => (name, value) :: m)
        else none
      | _ => none

/-- The value of a variable after `solve`: every variable is first
reset to 0 (lines 268-269) and then overwritten by its decoded entry,
if any. -/
def solveValue (decoded : List (List Char × List Char)) (name : List Char) : List Char :=
  match decoded.find? (fun e => e.1 == name) with
  | some e => e.2
  | none => ['0']

/-- C9 counterexample: a result file consisting only of the line
"Infeasible - objective value 0" contains no optimal-status line, yet
the decoding loop succeeds — the line is skipped by the
"objective value" test — so a non-optimal result is decoded as if the
solve had succeeded. -/
theorem claim9_counterexample :
    decodeLines [] [("Infeasible - objective value 0".toList)] = some [] ∧
    containsSeq ("Optimal".toList) ("Infeasible - objective value 0".toList) = false := by
  decide

/-- C9 (amended): after resetting every variable to 0, the decoder
fails (uncaught exception) on a malformed line, but it skips any line
containing "objective value" without inspecting the solver status, so
the absence of an optimal-status line is not treated as a failure. -/
theorem claim9_decode_amended (varNames : List (List Char))
    (line : List Char) (rest : List (List Char)) :
    (containsSeq objValuePat line = true →
      decodeLines varNames (line :: rest) = decodeLines varNames rest) ∧
    (containsSeq objValuePat line = false → (pySplit line).length < 3 →
      decodeLines varNames (line :: rest) = none) ∧
    (∀ name : List Char, solveValue [] name = ['0']) := by
  refine ⟨?_, ?_, ?_⟩
  · intro h
    simp only [decodeLines]
    rw [if_pos h]
  · intro hc hlen
    simp only [decodeLines]
    rw [if_neg (by simp [hc])]
    rcases hsplit : pySplit line with _ | ⟨a, _ | ⟨b, _ | ⟨v, t⟩⟩⟩
    · rfl
    · rfl
    · rfl
    · rw [hsplit] at hlen
      simp at hlen
      omega
  · intro name
    rfl

/-- Witness for the amended C9 at concrete result lines. -/
theorem claim9_witness :
    (decodeLines [] [("x objective value".toList), ("zz".toList)]
      = decodeLines [] [("zz".toList)]) ∧
    (decodeLines [] [("ab cd".toList)] = none) ∧
    solveValue [] ("team".toList) = ['0'] :=
  ⟨(claim9_decode_amended [] ("x objective value".toList) [("zz".toList)]).1 (by decide),
   (claim9_decode_amended [] ("ab cd".toList) []).2.1 (by decide) (by decide),
   (claim9_decode_amended [] ("q".toList) []).2.2 ("team".toList)⟩

end FPLPlan
